import Mathlib

/-!
Verification development for the natural-language-to-R orchestration layer
(`llm_r_interpreter.js` and `advanced_r_interpreter.js`).

The JavaScript source is shallowly embedded: the external services (the LLM
completion endpoints reached by `generateOpenAICode` / `generateAnthropicCode`,
and the E2B sandbox reached by `Sandbox.create` / `sandbox.runCode` /
`sandbox.filesystem.readFile`) are abstracted as oracle functions returning
`Except String α`, where `.error m` models a thrown JavaScript exception whose
`.message` is `m`.  JavaScript string truthiness (`''` and `undefined` are
falsy) is modelled explicitly; fields that may be `undefined` in JavaScript are
`Option`-typed.
-/

namespace LlmR

/-- Model of the E2B execution `logs` object: `logs.stdout` / `logs.stderr`
are arrays of strings, each possibly absent (`undefined`). -/
structure SboxLogs where
  stdout : Option (List String)
  stderr : Option (List String)
deriving DecidableEq, Repr

/-- Model of the E2B execution `filesystem` object with its `createdFiles`
array, each level possibly absent. -/
structure SboxFilesystem where
  createdFiles : Option (List String)
deriving DecidableEq, Repr

/-- Model of the object returned by `sandbox.runCode` (`executionResult` in
`processRRequest`).  In E2B, `error` is an `ExecutionError` object or
`undefined`; as an object it is always truthy when present, so presence is
modelled as `Option` (the `String` carries its text, unused by truthiness). -/
structure ExecutionResult where
  error : Option String
  logs : Option SboxLogs
  filesystem : Option SboxFilesystem
deriving DecidableEq, Repr

/-- Model of the plain object returned by `processRRequest`
(`llm_r_interpreter.js` lines 269-284).  The success branch sets
`code`/`execution`/`output`/`errors`/`createdFiles` and leaves `error`
undefined; the catch branch sets only `prompt`, `error` and
`success := false`, leaving the rest undefined. -/
structure ProcessResult where
  prompt : String
  code : Option String
  execution : Option ExecutionResult
  success : Bool
  output : Option String
  errors : Option String
  error : Option String
  createdFiles : Option (List String)
deriving DecidableEq, Repr

/-- JavaScript falsiness of a possibly-undefined string: `undefined` and the
empty string are falsy (`!x` is `true`). -/
def jsFalsy : Option String → Bool
  | none => true
  | some s => s = ""

/-- JavaScript `a || b` for a possibly-undefined string `a` and a string `b`:
returns `a` when truthy, else `b`. -/
def jsOrStr (a : Option String) (b : String) : String :=
  match a with
  | some s => if s = "" then b else s
  | none => b

/-- The `executionResult.logs?.stderr?.join('\n') || ''` expression
(`llm_r_interpreter.js` line 275): optional chaining yields `undefined`
(hence `''`) when `logs` or `stderr` is absent. -/
def joinedStderr (er : ExecutionResult) : String :=
  match er.logs with
  | none => ""
  | some lg =>
    match lg.stderr with
    | none => ""
    | some xs => String.intercalate "\n" xs

/-- The `executionResult.logs?.stdout?.join('\n') || ''` expression
(`llm_r_interpreter.js` line 274). -/
def joinedStdout (er : ExecutionResult) : String :=
  match er.logs with
  | none => ""
  | some lg =>
    match lg.stdout with
    | none => ""
    | some xs => String.intercalate "\n" xs

/-- The object returned by `processRRequest`'s catch branch
(`llm_r_interpreter.js` lines 280-284): prompt, the caught message, and
`success: false`; all other fields are left undefined. -/
def mkCatchResult (up m : String) : ProcessResult :=
  { prompt := up, code := none, execution := none, success := false,
    output := none, errors := none, error := some m, createdFiles := none }

/-- The object returned on `processRRequest`'s normal path
(`llm_r_interpreter.js` lines 269-277): `success` is `!executionResult.error`
(an E2B error object is truthy whenever present), `output`/`errors` join the
log arrays, `createdFiles` is `executionResult.filesystem?.createdFiles || []`. -/
def mkOkResult (up code : String) (er : ExecutionResult) : ProcessResult :=
  { prompt := up, code := some code, execution := some er,
    success := er.error.isNone,
    output := some (joinedStdout er), errors := some (joinedStderr er),
    error := none,
    createdFiles := some ((er.filesystem.bind (fun f => f.createdFiles)).getD []) }

/-- JavaScript `s.endsWith(suffix)`: a case-sensitive suffix test, modelled on
the character lists underlying the strings. -/
def jsEndsWith (s suffix : String) : Bool :=
  List.isSuffixOf suffix.toList s.toList

/-- The download filter of `processRRequest` (`llm_r_interpreter.js` line 260):
`file.endsWith('.png') || file.endsWith('.jpg') || file.endsWith('.pdf')`,
a case-sensitive suffix test. -/
def allowJs (file : String) : Bool :=
  jsEndsWith file ".png" || jsEndsWith file ".jpg" || jsEndsWith file ".pdf"

/-- The download `for` loop of `processRRequest` (`llm_r_interpreter.js`
lines 259-266): each file passing `allowJs` is read from the sandbox
(oracle `dl`, covering `sandbox.filesystem.readFile` plus the local
`fs.writeFileSync`); a thrown read propagates out of the loop (there is no
try/catch around the body), aborting the remaining files. -/
def downloadLoop (dl : String → Except String Unit) : List String → Except String Unit
  | [] => Except.ok ()
  | f :: rest =>
    if allowJs f then
      match dl f with
      | Except.error e => Except.error e
      | Except.ok _ => downloadLoop dl rest
    else downloadLoop dl rest

/-- The guarded download block of `processRRequest` (`llm_r_interpreter.js`
lines 256-267): runs only when `executionResult.filesystem` and
`executionResult.filesystem.createdFiles` are both present (arrays and objects
are truthy in JavaScript); first `Sandbox.create` for the download sandbox
(oracle `dlInit`), then the download loop. -/
def downloadPhase (dlInit : Except String Unit) (dl : String → Except String Unit)
    (er : ExecutionResult) : Except String Unit :=
  match er.filesystem with
  | none => Except.ok ()
  | some fsys =>
    match fsys.createdFiles with
    | none => Except.ok ()
    | some files =>
      match dlInit with
      | Except.error m => Except.error m
      | Except.ok _ => downloadLoop dl files

/-- Shallow embedding of `processRRequest` (`llm_r_interpreter.js` lines
238-286).  `gen` abstracts `generateRCode`, `exec` abstracts `executeRCode`,
`dlInit`/`dl` abstract the download block's sandbox creation and per-file
reads.  Every `.error m` models a thrown exception reaching the catch branch. -/
def processRRequest (gen : String → Except String String)
    (exec : String → Except String ExecutionResult)
    (dlInit : Except String Unit) (dl : String → Except String Unit)
    (userPrompt : String) : ProcessResult :=
  match gen userPrompt with
  | Except.error m => mkCatchResult userPrompt m
  | Except.ok code =>
    match exec code with
    | Except.error m => mkCatchResult userPrompt m
    | Except.ok er =>
      match downloadPhase dlInit dl er with
      | Except.error m => mkCatchResult userPrompt m
      | Except.ok _ => mkOkResult userPrompt code er

/-- The success test of `runWithCorrection` (`llm_r_interpreter.js` line 310):
`result.success && !result.errors`, with JavaScript truthiness on the
possibly-undefined `errors` string. -/
def attemptSucceeded (r : ProcessResult) : Bool :=
  r.success && jsFalsy r.errors

/-- The error-context update of `runWithCorrection` (`llm_r_interpreter.js`
line 314): `result.errors || result.error || 'Unknown error occurred'`. -/
def nextErrorContext (r : ProcessResult) : String :=
  jsOrStr r.errors (jsOrStr r.error "Unknown error occurred")

/-- The per-attempt prompt of `runWithCorrection` (`llm_r_interpreter.js`
lines 304-306): the bare user prompt on attempt 1, otherwise the user prompt
with the error context spliced into the fixed template. -/
def promptWithContext (userPrompt errorContext : String) (attempt : Nat) : String :=
  if attempt = 1 then userPrompt
  else
    userPrompt ++ "\n\nThe previous code resulted in the following error:\n"
      ++ errorContext ++ "\n\nPlease fix the code and try again."

/-- Fuel-indexed unfolding of the `while (attempt <= maxAttempts)` loop of
`runWithCorrection` (`llm_r_interpreter.js` lines 300-318).  `proc` abstracts
`processRRequest` at a given attempt number (outer world responses may differ
per attempt); `last` is the `result` variable (undefined before the first
iteration).  Besides the returned result, the list of `(attempt, prompt)`
pairs actually submitted to `processRRequest` is collected, so that theorems
can speak about which generation/execution calls were performed.  The fuel
exceeds the iteration count whenever it is at least `maxAttempts + 1`, so the
fuel-exhausted branch is never taken by `runWithCorrection` below. -/
def runWithCorrectionGo (proc : Nat → String → ProcessResult) (userPrompt : String)
    (maxAttempts : Nat) :
    Nat → Nat → String → Option ProcessResult → Option ProcessResult × List (Nat × String)
  | 0, _, _, last => (last, [])
  | fuel + 1, attempt, errorContext, last =>
    if attempt ≤ maxAttempts then
      let p := promptWithContext userPrompt errorContext attempt
      let r := proc attempt p
      if attemptSucceeded r then (some r, [(attempt, p)])
      else
        let rest := runWithCorrectionGo proc userPrompt maxAttempts fuel (attempt + 1)
          (nextErrorContext r) (some r)
        (rest.1, (attempt, p) :: rest.2)
    else (last, [])

/-- Shallow embedding of `runWithCorrection` (`llm_r_interpreter.js` lines
295-322): `attempt` starts at 1, `errorContext` at `''`, `result` undefined;
returns the final `result` together with the trace of issued attempts. -/
def runWithCorrection (proc : Nat → String → ProcessResult) (userPrompt : String)
    (maxAttempts : Nat) : Option ProcessResult × List (Nat × String) :=
  runWithCorrectionGo proc userPrompt maxAttempts (maxAttempts + 1) 1 "" none

/-- Relation between consecutive entries of a `runWithCorrection` trace: the
attempt number increases by one and the later prompt is built by
`promptWithContext` from the error context extracted from the earlier
attempt's actual result. -/
def chainedTrace (userPrompt : String) (proc : Nat → String → ProcessResult) :
    List (Nat × String) → Prop
  | (a, p) :: (b, q) :: rest =>
    (b = a + 1 ∧ q = promptWithContext userPrompt (nextErrorContext (proc a p)) (a + 1))
      ∧ chainedTrace userPrompt proc ((b, q) :: rest)
  | _ => True

/-- The backtick character, written by code point to keep it out of the
non-string program text. -/
def btChar : Char := Char.ofNat 96

/-- Left-to-right scan implementing `code.replace(/```r?|```/gi, '')`
(`llm_r_interpreter.js` line 160): at each position, three consecutive
backticks (optionally followed by `r` or `R`, consumed greedily, the `i` flag
making it case-insensitive) are deleted and scanning resumes after the match;
otherwise one character is emitted. -/
def stripFences : List Char → List Char
  | c1 :: c2 :: c3 :: c4 :: rest =>
    if c1 = btChar && c2 = btChar && c3 = btChar then
      if c4 = 'r' || c4 = 'R' then stripFences rest
      else stripFences (c4 :: rest)
    else c1 :: stripFences (c2 :: c3 :: c4 :: rest)
  | [c1, c2, c3] =>
    if c1 = btChar && c2 = btChar && c3 = btChar then []
    else c1 :: stripFences [c2, c3]
  | c1 :: rest => c1 :: stripFences rest
  | [] => []

/-- Whether a character list contains three consecutive backticks (a fenced
code-block delimiter). -/
def hasTripleBt : List Char → Bool
  | c1 :: c2 :: c3 :: rest =>
    (c1 = btChar && c2 = btChar && c3 = btChar) || hasTripleBt (c2 :: c3 :: rest)
  | _ => false

/-- ASCII whitespace removed by JavaScript's `String.prototype.trim` (the
full JavaScript set also has Unicode space separators, which the generated
code paths do not produce). -/
def jsWhite (c : Char) : Bool :=
  c = ' ' || c = '\t' || c = '\n' || c = '\r' || c = Char.ofNat 11 || c = Char.ofNat 12

/-- Model of `cleanedCode.trim()` (`llm_r_interpreter.js` line 163): drop
whitespace from both ends. -/
def jsTrim (l : List Char) : List Char :=
  ((l.dropWhile jsWhite).reverse.dropWhile jsWhite).reverse

/-- Model of `cleanedCode.replace(/`/g, '')` on line 167: delete every
backtick. -/
def removeAllBt (l : List Char) : List Char :=
  l.filter (fun c => !(c = btChar))

/-- Model of `cleanedCode.startsWith('\x60')` on line 166. -/
def startsWithBt : List Char → Bool
  | c :: _ => c = btChar
  | [] => false

/-- Model of `cleanedCode.endsWith('\x60')` on line 166. -/
def endsWithBt (l : List Char) : Bool :=
  startsWithBt l.reverse

/-- Shallow embedding of `cleanRCode` (`llm_r_interpreter.js` lines 158-171)
on character lists: strip fence matches, trim, then remove every backtick when
the trimmed text still starts or ends with one. -/
def cleanRCode (code : List Char) : List Char :=
  let cleaned := stripFences code
  let trimmed := jsTrim cleaned
  if startsWithBt trimmed || endsWithBt trimmed then removeAllBt trimmed else trimmed

/-- POSIX `path.basename`: the component after the last `/` (the callers never
pass paths with trailing separators). -/
def basename (p : String) : String :=
  String.mk ((p.toList.reverse.takeWhile (fun c => !(c = '/'))).reverse)

/-- Model of `path.join(localDir, fileName)` as used on a directory and a base
name: separator insertion (no normalization is needed for these inputs). -/
def pathJoin (dir name : String) : String :=
  dir ++ "/" ++ name

/-- Accumulator form of the `for` loop of `downloadFilesFromSandbox`
(`advanced_r_interpreter.js` lines 157-172): for each sandbox path, the inner
try reads the file and writes it locally (both modelled by the oracle
`fetch`); on success the local path is pushed onto `downloadedFiles`, and a
thrown read/write is caught so the loop continues with the other files. -/
def downloadFilesGo (fetch : String → Except String Unit) (localDir : String) :
    List String → List String → List String
  | [], acc => acc
  | p :: rest, acc =>
    match fetch p with
    | Except.ok _ => downloadFilesGo fetch localDir rest (acc ++ [pathJoin localDir (basename p)])
    | Except.error _ => downloadFilesGo fetch localDir rest acc

/-- Shallow embedding of `downloadFilesFromSandbox` (`advanced_r_interpreter.js`
lines 147-179).  The local `mkdirSync` of the target directory is assumed to
succeed (a local filesystem effect outside the modelled remote boundary);
there is no extension filtering anywhere in this function. -/
def downloadFilesFromSandbox (fetch : String → Except String Unit)
    (sandboxFiles : List String) (localDir : String) : List String :=
  downloadFilesGo fetch localDir sandboxFiles []

/-- Remote-sandbox operations observable at the E2B boundary in
`llm_r_interpreter.js`: `Sandbox.create`, `sandbox.runCode`, and a session
close/kill.  Session handles are identified by the order of creation. -/
inductive SboxOp where
  | create (sid : Nat)
  | runCode (sid : Nat)
  | close (sid : Nat)
deriving DecidableEq, Repr

/-- Session identifiers occurring in a list of sandbox operations. -/
def opsSids (ops : List SboxOp) : List Nat :=
  ops.map (fun op => match op with
    | SboxOp.create sid => sid
    | SboxOp.runCode sid => sid
    | SboxOp.close sid => sid)

/-- Shallow embedding of `executeRCode` (`llm_r_interpreter.js` lines 203-230)
instrumented with the sandbox operations it performs: every call creates a
fresh sandbox (`Sandbox.create`, identified by the running counter `ctr`) and
runs the code on it; `runOutcome sid code` gives the result or thrown error of
`sandbox.runCode`.  No close operation appears anywhere in the source. -/
def executeRCodeS (runOutcome : Nat → String → Except String ExecutionResult)
    (code : String) (ctr : Nat) : Except String ExecutionResult × Nat × List SboxOp :=
  (runOutcome ctr code, ctr + 1, [SboxOp.create ctr, SboxOp.runCode ctr])

/-- Shallow embedding of `processRRequest` instrumented with sandbox
operations and the session counter: generation, then `executeRCode` on a fresh
sandbox, then — when `filesystem.createdFiles` is present — a second fresh
sandbox (`llm_r_interpreter.js` line 257) from which the allowlisted files are
read (`readOutcome sid path`). -/
def processRRequestS (gen : String → Except String String)
    (runOutcome : Nat → String → Except String ExecutionResult)
    (readOutcome : Nat → String → Except String Unit)
    (userPrompt : String) (ctr : Nat) : ProcessResult × Nat × List SboxOp :=
  match gen userPrompt with
  | Except.error m => (mkCatchResult userPrompt m, ctr, [])
  | Except.ok code =>
    let step := executeRCodeS runOutcome code ctr
    match step.1 with
    | Except.error m => (mkCatchResult userPrompt m, step.2.1, step.2.2)
    | Except.ok er =>
      match er.filesystem with
      | none => (mkOkResult userPrompt code er, step.2.1, step.2.2)
      | some fsys =>
        match fsys.createdFiles with
        | none => (mkOkResult userPrompt code er, step.2.1, step.2.2)
        | some files =>
          let dlSid := step.2.1
          let ops := step.2.2 ++ [SboxOp.create dlSid]
          match downloadLoop (readOutcome dlSid) files with
          | Except.error m => (mkCatchResult userPrompt m, dlSid + 1, ops)
          | Except.ok _ => (mkOkResult userPrompt code er, dlSid + 1, ops)

/-- Fuel-indexed `runWithCorrection` loop over the instrumented
`processRRequestS`, threading the session counter and recording, per attempt,
the sandbox operations performed. -/
def runWithCorrectionGoS (gen : String → Except String String)
    (runOutcome : Nat → String → Except String ExecutionResult)
    (readOutcome : Nat → String → Except String Unit)
    (userPrompt : String) (maxAttempts : Nat) :
    Nat → Nat → String → Option ProcessResult → Nat →
    Option ProcessResult × List (Nat × List SboxOp)
  | 0, _, _, last, _ => (last, [])
  | fuel + 1, attempt, errorContext, last, ctr =>
    if attempt ≤ maxAttempts then
      let p := promptWithContext userPrompt errorContext attempt
      let step := processRRequestS gen runOutcome readOutcome p ctr
      if attemptSucceeded step.1 then (some step.1, [(attempt, step.2.2)])
      else
        let rest := runWithCorrectionGoS gen runOutcome readOutcome userPrompt maxAttempts
          fuel (attempt + 1) (nextErrorContext step.1) (some step.1) step.2.1
        (rest.1, (attempt, step.2.2) :: rest.2)
    else (last, [])

/-- Instrumented `runWithCorrection`: the correction loop started with the
session counter `ctr0`, returning the final result and the per-attempt
sandbox-operation trace. -/
def runWithCorrectionS (gen : String → Except String String)
    (runOutcome : Nat → String → Except String ExecutionResult)
    (readOutcome : Nat → String → Except String Unit)
    (userPrompt : String) (maxAttempts : Nat) (ctr0 : Nat) :
    Option ProcessResult × List (Nat × List SboxOp) :=
  runWithCorrectionGoS gen runOutcome readOutcome userPrompt maxAttempts
    (maxAttempts + 1) 1 "" none ctr0

/-- Whether one character sequence starts with another. -/
def startsWithSeq : List Char → List Char → Bool
  | [], _ => true
  | _ :: _, [] => false
  | a :: as, b :: bs => b = a && startsWithSeq as bs

/-- Whether `needle` occurs as a contiguous subsequence of `haystack`. -/
def containsSeq (needle : List Char) : List Char → Bool
  | [] => startsWithSeq needle []
  | c :: rest => startsWithSeq needle (c :: rest) || containsSeq needle rest

/-- Boolean success test on a JavaScript-style fallible call. -/
def exceptOk {ε α : Type} : Except ε α → Bool
  | Except.ok _ => true
  | Except.error _ => false

theorem go_of_gt (proc : Nat → String → ProcessResult) (up : String) (maxA : Nat)
    (fuel attempt : Nat) (ec : String) (last : Option ProcessResult)
    (h : maxA < attempt) :
    runWithCorrectionGo proc up maxA fuel attempt ec last = (last, []) := by
  cases fuel with
  | zero => rfl
  | succ n =>
    simp only [runWithCorrectionGo]
    rw [if_neg (Nat.not_le.2 h)]

theorem go_of_le_succ (proc : Nat → String → ProcessResult) (up : String) (maxA : Nat)
    (fuel attempt : Nat) (ec : String) (last : Option ProcessResult)
    (h : attempt ≤ maxA)
    (hs : attemptSucceeded (proc attempt (promptWithContext up ec attempt)) = true) :
    runWithCorrectionGo proc up maxA (fuel + 1) attempt ec last =
      (some (proc attempt (promptWithContext up ec attempt)),
       [(attempt, promptWithContext up ec attempt)]) := by
  simp only [runWithCorrectionGo]
  rw [if_pos h]
  simp only [hs, if_pos]

theorem go_of_le_fail (proc : Nat → String → ProcessResult) (up : String) (maxA : Nat)
    (fuel attempt : Nat) (ec : String) (last : Option ProcessResult)
    (h : attempt ≤ maxA)
    (hs : attemptSucceeded (proc attempt (promptWithContext up ec attempt)) = false) :
    runWithCorrectionGo proc up maxA (fuel + 1) attempt ec last =
      ((runWithCorrectionGo proc up maxA fuel (attempt + 1)
          (nextErrorContext (proc attempt (promptWithContext up ec attempt)))
          (some (proc attempt (promptWithContext up ec attempt)))).1,
       (attempt, promptWithContext up ec attempt) ::
        (runWithCorrectionGo proc up maxA fuel (attempt + 1)
          (nextErrorContext (proc attempt (promptWithContext up ec attempt)))
          (some (proc attempt (promptWithContext up ec attempt)))).2) := by
  simp only [runWithCorrectionGo]
  rw [if_pos h]
  simp only [hs, Bool.false_eq_true, if_false]

theorem go_trace_attempts (proc : Nat → String → ProcessResult) (up : String) (maxA : Nat) :
    ∀ fuel attempt ec last,
      ((runWithCorrectionGo proc up maxA fuel attempt ec last).2).map Prod.fst
        = List.range' attempt ((runWithCorrectionGo proc up maxA fuel attempt ec last).2).length := by
  intro fuel
  induction fuel with
  | zero => intro attempt ec last; rfl
  | succ n ih =>
    intro attempt ec last
    by_cases hle : attempt ≤ maxA
    · by_cases hs : attemptSucceeded (proc attempt (promptWithContext up ec attempt)) = true
      · rw [go_of_le_succ proc up maxA n attempt ec last hle hs]
        rfl
      · rw [go_of_le_fail proc up maxA n attempt ec last hle (Bool.eq_false_iff.2 hs)]
        simp only [List.map_cons, List.length_cons]
        rw [ih]
        rfl
    · rw [go_of_gt proc up maxA (n + 1) attempt ec last (Nat.lt_of_not_le hle)]
      rfl

theorem go_trace_len_le (proc : Nat → String → ProcessResult) (up : String) (maxA : Nat) :
    ∀ fuel attempt ec last,
      ((runWithCorrectionGo proc up maxA fuel attempt ec last).2).length ≤ maxA + 1 - attempt := by
  intro fuel
  induction fuel with
  | zero => intro attempt ec last; exact Nat.zero_le _
  | succ n ih =>
    intro attempt ec last
    by_cases hle : attempt ≤ maxA
    · by_cases hs : attemptSucceeded (proc attempt (promptWithContext up ec attempt)) = true
      · rw [go_of_le_succ proc up maxA n attempt ec last hle hs]
        have : 1 ≤ maxA + 1 - attempt := by omega
        simpa using this
      · rw [go_of_le_fail proc up maxA n attempt ec last hle (Bool.eq_false_iff.2 hs)]
        have h2 := ih (attempt + 1) (nextErrorContext (proc attempt (promptWithContext up ec attempt)))
          (some (proc attempt (promptWithContext up ec attempt)))
        simp only [List.length_cons]
        omega
    · rw [go_of_gt proc up maxA (n + 1) attempt ec last (Nat.lt_of_not_le hle)]
      exact Nat.zero_le _

theorem go_returns (proc : Nat → String → ProcessResult) (up : String) (maxA : Nat) :
    ∀ fuel attempt ec last, attempt ≤ maxA → maxA + 1 ≤ attempt + fuel →
      1 ≤ ((runWithCorrectionGo proc up maxA fuel attempt ec last).2).length ∧
      ((runWithCorrectionGo proc up maxA fuel attempt ec last).1).isSome = true := by
  intro fuel
  induction fuel with
  | zero => intro attempt ec last hle hfuel; omega
  | succ n ih =>
    intro attempt ec last hle hfuel
    by_cases hs : attemptSucceeded (proc attempt (promptWithContext up ec attempt)) = true
    · rw [go_of_le_succ proc up maxA n attempt ec last hle hs]
      exact ⟨by simp, rfl⟩
    · rw [go_of_le_fail proc up maxA n attempt ec last hle (Bool.eq_false_iff.2 hs)]
      refine ⟨by simp, ?_⟩
      by_cases hle2 : attempt + 1 ≤ maxA
      · exact (ih (attempt + 1) _ _ hle2 (by omega)).2
      · rw [go_of_gt proc up maxA n (attempt + 1) _ _ (by omega)]
        rfl

theorem go_succ_at (proc : Nat → String → ProcessResult) (up : String) (maxA k : Nat)
    (hfail : ∀ a p, a < k → attemptSucceeded (proc a p) = false)
    (hsucc : ∀ p, attemptSucceeded (proc k p) = true) :
    ∀ fuel attempt ec last, attempt ≤ k → k ≤ maxA → maxA + 1 ≤ attempt + fuel →
      ((runWithCorrectionGo proc up maxA fuel attempt ec last).2).length = k + 1 - attempt ∧
      ∃ p, (k, p) ∈ (runWithCorrectionGo proc up maxA fuel attempt ec last).2 ∧
        (runWithCorrectionGo proc up maxA fuel attempt ec last).1 = some (proc k p) := by
  intro fuel
  induction fuel with
  | zero => intro attempt ec last h1 h2 h3; omega
  | succ n ih =>
    intro attempt ec last h1 h2 h3
    by_cases heq : attempt = k
    · subst heq
      rw [go_of_le_succ proc up maxA n attempt ec last (le_trans h1 h2) (hsucc _)]
      exact ⟨by simp, promptWithContext up ec attempt, by simp⟩
    · have hlt : attempt < k := lt_of_le_of_ne h1 heq
      rw [go_of_le_fail proc up maxA n attempt ec last (by omega) (hfail _ _ hlt)]
      have hrec := ih (attempt + 1) (nextErrorContext (proc attempt (promptWithContext up ec attempt)))
        (some (proc attempt (promptWithContext up ec attempt))) hlt h2 (by omega)
      refine ⟨by simp only [List.length_cons]; omega, ?_⟩
      obtain ⟨p, hp, hres⟩ := hrec.2
      exact ⟨p, List.mem_cons_of_mem _ hp, hres⟩

theorem go_all_fail (proc : Nat → String → ProcessResult) (up : String) (maxA : Nat)
    (hfail : ∀ a p, attemptSucceeded (proc a p) = false) :
    ∀ fuel attempt ec last, attempt ≤ maxA → maxA + 1 ≤ attempt + fuel →
      ((runWithCorrectionGo proc up maxA fuel attempt ec last).2).length = maxA + 1 - attempt ∧
      ∃ p, (maxA, p) ∈ (runWithCorrectionGo proc up maxA fuel attempt ec last).2 ∧
        (runWithCorrectionGo proc up maxA fuel attempt ec last).1 = some (proc maxA p) := by
  intro fuel
  induction fuel with
  | zero => intro attempt ec last h1 h2; omega
  | succ n ih =>
    intro attempt ec last h1 h2
    rw [go_of_le_fail proc up maxA n attempt ec last h1 (hfail _ _)]
    by_cases heq : attempt = maxA
    · rw [go_of_gt proc up maxA n (attempt + 1) _ _ (by omega)]
      refine ⟨?_, promptWithContext up ec attempt, ?_, ?_⟩
      · simp
        omega
      · simp [heq]
      · simp [heq]
    · have hrec := ih (attempt + 1)
        (nextErrorContext (proc attempt (promptWithContext up ec attempt)))
        (some (proc attempt (promptWithContext up ec attempt))) (by omega) (by omega)
      refine ⟨by simp only [List.length_cons]; omega, ?_⟩
      obtain ⟨p, hp, hres⟩ := hrec.2
      exact ⟨p, List.mem_cons_of_mem _ hp, hres⟩

theorem go_head (proc : Nat → String → ProcessResult) (up : String) (maxA : Nat)
    (fuel attempt : Nat) (ec : String) (last : Option ProcessResult) (h : attempt ≤ maxA) :
    ((runWithCorrectionGo proc up maxA (fuel + 1) attempt ec last).2).head? =
      some (attempt, promptWithContext up ec attempt) := by
  by_cases hs : attemptSucceeded (proc attempt (promptWithContext up ec attempt)) = true
  · rw [go_of_le_succ proc up maxA fuel attempt ec last h hs]
    rfl
  · rw [go_of_le_fail proc up maxA fuel attempt ec last h (Bool.eq_false_iff.2 hs)]
    rfl

theorem go_chained (proc : Nat → String → ProcessResult) (up : String) (maxA : Nat) :
    ∀ fuel attempt ec last,
      chainedTrace up proc (runWithCorrectionGo proc up maxA fuel attempt ec last).2 := by
  intro fuel
  induction fuel with
  | zero => intro attempt ec last; trivial
  | succ n ih =>
    intro attempt ec last
    by_cases hle : attempt ≤ maxA
    · by_cases hs : attemptSucceeded (proc attempt (promptWithContext up ec attempt)) = true
      · rw [go_of_le_succ proc up maxA n attempt ec last hle hs]
        trivial
      · rw [go_of_le_fail proc up maxA n attempt ec last hle (Bool.eq_false_iff.2 hs)]
        show chainedTrace up proc ((attempt, promptWithContext up ec attempt) ::
          (runWithCorrectionGo proc up maxA n (attempt + 1)
            (nextErrorContext (proc attempt (promptWithContext up ec attempt)))
            (some (proc attempt (promptWithContext up ec attempt)))).2)
        have htail := ih (attempt + 1)
          (nextErrorContext (proc attempt (promptWithContext up ec attempt)))
          (some (proc attempt (promptWithContext up ec attempt)))
        rcases hm : (runWithCorrectionGo proc up maxA n (attempt + 1)
            (nextErrorContext (proc attempt (promptWithContext up ec attempt)))
            (some (proc attempt (promptWithContext up ec attempt)))).2 with _ | ⟨⟨b, q⟩, rest⟩
        · trivial
        · rw [hm] at htail
          have hne : b = attempt + 1 ∧ q = promptWithContext up
              (nextErrorContext (proc attempt (promptWithContext up ec attempt)))
              (attempt + 1) := by
            by_cases hle2 : attempt + 1 ≤ maxA
            · cases n with
              | zero => cases hm
              | succ n2 =>
                have hh := go_head proc up maxA n2 (attempt + 1)
                  (nextErrorContext (proc attempt (promptWithContext up ec attempt)))
                  (some (proc attempt (promptWithContext up ec attempt))) hle2
                rw [hm] at hh
                simp only [List.head?_cons, Option.some_inj, Prod.mk.injEq] at hh
                exact hh
            · have hz := go_of_gt proc up maxA n (attempt + 1)
                (nextErrorContext (proc attempt (promptWithContext up ec attempt)))
                (some (proc attempt (promptWithContext up ec attempt))) (by omega)
              rw [hz] at hm
              cases hm
          exact ⟨hne, htail⟩
    · rw [go_of_gt proc up maxA (n + 1) attempt ec last (Nat.lt_of_not_le hle)]
      trivial

/-- C1: in `runWithCorrection`, for every request and every `maxAttempts ≥ 1`,
the attempt counter of the performed attempts starts at 1 and increases by
exactly one per attempt (hence is monotonically non-decreasing), never exceeds
`maxAttempts`, at least one attempt is performed, and the loop returns exactly
one result. -/
theorem correction_attempt_bounds (proc : Nat → String → ProcessResult)
    (up : String) (maxAttempts : Nat) (h : 1 ≤ maxAttempts) :
    ((runWithCorrection proc up maxAttempts).2).map Prod.fst
        = List.range' 1 ((runWithCorrection proc up maxAttempts).2).length ∧
    ((runWithCorrection proc up maxAttempts).2).length ≤ maxAttempts ∧
    1 ≤ ((runWithCorrection proc up maxAttempts).2).length ∧
    ((runWithCorrection proc up maxAttempts).1).isSome = true := by
  simp only [runWithCorrection]
  refine ⟨go_trace_attempts proc up maxAttempts _ 1 "" none, ?_, ?_, ?_⟩
  · have := go_trace_len_le proc up maxAttempts (maxAttempts + 1) 1 "" none
    omega
  · exact (go_returns proc up maxAttempts (maxAttempts + 1) 1 "" none h (by omega)).1
  · exact (go_returns proc up maxAttempts (maxAttempts + 1) 1 "" none h (by omega)).2

/-- Witness for C1: a concrete always-failing run with `maxAttempts = 2`. -/
theorem correction_attempt_bounds_witness :
    ((runWithCorrection (fun _ p => mkCatchResult p "boom") "task" 2).2).map Prod.fst
        = List.range' 1 ((runWithCorrection (fun _ p => mkCatchResult p "boom") "task" 2).2).length ∧
    ((runWithCorrection (fun _ p => mkCatchResult p "boom") "task" 2).2).length ≤ 2 ∧
    1 ≤ ((runWithCorrection (fun _ p => mkCatchResult p "boom") "task" 2).2).length ∧
    ((runWithCorrection (fun _ p => mkCatchResult p "boom") "task" 2).1).isSome = true :=
  correction_attempt_bounds (fun _ p => mkCatchResult p "boom") "task" 2 (by decide)

/-- C3: if the attempt-`k` result is classified as success and every earlier
attempt is classified as failure, the correction loop performs exactly the
attempts `1..k`, and returns the attempt-`k` result (no attempt `k + 1`
occurs). -/
theorem success_terminates_loop (proc : Nat → String → ProcessResult)
    (up : String) (maxAttempts k : Nat) (hk : 1 ≤ k) (hkM : k ≤ maxAttempts)
    (hfail : ∀ a p, a < k → attemptSucceeded (proc a p) = false)
    (hsucc : ∀ p, attemptSucceeded (proc k p) = true) :
    ((runWithCorrection proc up maxAttempts).2).length = k ∧
    ((runWithCorrection proc up maxAttempts).2).map Prod.fst = List.range' 1 k ∧
    ∃ p, (k, p) ∈ (runWithCorrection proc up maxAttempts).2 ∧
      (runWithCorrection proc up maxAttempts).1 = some (proc k p) := by
  simp only [runWithCorrection]
  have hmain := go_succ_at proc up maxAttempts k hfail hsucc (maxAttempts + 1) 1 "" none hk hkM
    (by omega)
  have hlen : ((runWithCorrectionGo proc up maxAttempts (maxAttempts + 1) 1 "" none).2).length = k := by
    omega
  refine ⟨hlen, ?_, hmain.2⟩
  have := go_trace_attempts proc up maxAttempts (maxAttempts + 1) 1 "" none
  rw [hlen] at this
  exact this

/-- Witness for C3: success on attempt 2 of 3 after one failure. -/
theorem success_terminates_loop_witness :
    ((runWithCorrection (fun a p => if a = 2 then mkOkResult p "c" ⟨none, none, none⟩
        else mkCatchResult p "boom") "task" 3).2).length = 2 ∧
    ((runWithCorrection (fun a p => if a = 2 then mkOkResult p "c" ⟨none, none, none⟩
        else mkCatchResult p "boom") "task" 3).2).map Prod.fst = List.range' 1 2 ∧
    ∃ p, (2, p) ∈ (runWithCorrection (fun a p => if a = 2 then mkOkResult p "c" ⟨none, none, none⟩
        else mkCatchResult p "boom") "task" 3).2 ∧
      (runWithCorrection (fun a p => if a = 2 then mkOkResult p "c" ⟨none, none, none⟩
        else mkCatchResult p "boom") "task" 3).1
        = some ((fun (a : Nat) (p : String) => if a = 2 then mkOkResult p "c" ⟨none, none, none⟩
            else mkCatchResult p "boom") 2 p) :=
  success_terminates_loop _ "task" 3 2 (by decide) (by decide)
    (fun a p h => by
      rw [if_neg (by omega : ¬a = 2)]
      rfl)
    (fun p => rfl)

/-- C4: if every attempt is classified as failure, the loop performs exactly
`maxAttempts` attempts and returns the result of the final
(`maxAttempts`-th) attempt; no further attempt occurs. -/
theorem exhaustion_returns_last (proc : Nat → String → ProcessResult)
    (up : String) (maxAttempts : Nat) (h : 1 ≤ maxAttempts)
    (hfail : ∀ a p, attemptSucceeded (proc a p) = false) :
    ((runWithCorrection proc up maxAttempts).2).length = maxAttempts ∧
    ∃ p, (maxAttempts, p) ∈ (runWithCorrection proc up maxAttempts).2 ∧
      (runWithCorrection proc up maxAttempts).1 = some (proc maxAttempts p) := by
  simp only [runWithCorrection]
  have hmain := go_all_fail proc up maxAttempts hfail (maxAttempts + 1) 1 "" none h (by omega)
  exact ⟨by omega, hmain.2⟩

/-- C5 (amended): every pair of consecutive performed attempts is linked by
the actual rule of the source: the later attempt's prompt is the user prompt
followed by the literal text (with newline separators)
of `promptWithContext`, whose error context is
`result.errors || result.error || 'Unknown error occurred'` computed from the
earlier attempt's actual result; the first performed attempt uses the bare
user prompt. -/
theorem prompt_template_amended (proc : Nat → String → ProcessResult)
    (up : String) (maxAttempts : Nat) :
    chainedTrace up proc (runWithCorrection proc up maxAttempts).2 ∧
    ((runWithCorrection proc up maxAttempts).2).head? =
      (if 1 ≤ maxAttempts then some (1, up) else none) := by
  constructor
  · exact go_chained proc up maxAttempts (maxAttempts + 1) 1 "" none
  · by_cases h : 1 ≤ maxAttempts
    · rw [if_pos h]
      have hh := go_head proc up maxAttempts maxAttempts 1 "" none h
      simpa [runWithCorrection, promptWithContext] using hh
    · rw [if_neg h]
      show (runWithCorrectionGo proc up maxAttempts (maxAttempts + 1) 1 "" none).2.head? = none
      rw [go_of_gt proc up maxAttempts (maxAttempts + 1) 1 "" none (by omega)]
      rfl

/-- Counterexample for C5: with stderr `boom` on attempt 1, the attempt-2
prompt is the newline-separated template, which does not contain the text
claimed by the specification (`error: boom. Please fix`), and with a set
execution error but empty stderr the fallback context is
`Unknown error occurred`, not the failure's own message `bad thing`. -/
theorem prompt_template_counterexample :
    ((runWithCorrection (fun _ p => mkOkResult p "c"
        ⟨some "err", some ⟨some [], some ["boom"]⟩, none⟩) "task" 2).2).getLast?
      = some (2, "task\n\nThe previous code resulted in the following error:\nboom\n\nPlease fix the code and try again.") ∧
    containsSeq ("The previous code resulted in the following error: boom. Please fix the code and try again.".toList)
      ("task\n\nThe previous code resulted in the following error:\nboom\n\nPlease fix the code and try again.".toList) = false ∧
    ((runWithCorrection (fun _ p => mkOkResult p "c"
        ⟨some "bad thing", some ⟨some [], some []⟩, none⟩) "task" 2).2).getLast?
      = some (2, "task\n\nThe previous code resulted in the following error:\nUnknown error occurred\n\nPlease fix the code and try again.") := by
  refine ⟨by decide, by decide, by decide⟩

/-- C2 (amended): for an attempt whose generation, execution and artifact
download all complete without throwing, the attempt is classified as failed
if and only if the execution result's error field is set or the accumulated
stderr text is non-empty; in particular a process-level success with
non-empty stderr is classified as failed. -/
theorem classification_amended (gen : String → Except String String)
    (exec : String → Except String ExecutionResult)
    (dlInit : Except String Unit) (dl : String → Except String Unit)
    (up code : String) (er : ExecutionResult)
    (hgen : gen up = Except.ok code) (hexec : exec code = Except.ok er)
    (hdl : downloadPhase dlInit dl er = Except.ok ()) :
    attemptSucceeded (processRRequest gen exec dlInit dl up) = false
      ↔ (er.error.isSome = true ∨ joinedStderr er ≠ "") := by
  simp only [processRRequest, hgen, hexec, hdl]
  show (attemptSucceeded (mkOkResult up code er) = false
    ↔ (er.error.isSome = true ∨ joinedStderr er ≠ ""))
  cases he : er.error with
  | none =>
    by_cases h2 : joinedStderr er = "" <;>
      simp [attemptSucceeded, mkOkResult, jsFalsy, he, h2]
  | some e =>
    simp [attemptSucceeded, mkOkResult, he]

/-- Witness for C2 (amended): a process-level success whose stderr buffer is
`warn` is classified as failed. -/
theorem classification_amended_witness :
    attemptSucceeded (processRRequest (fun _ => Except.ok "c")
        (fun _ => Except.ok ⟨none, some ⟨some [], some ["warn"]⟩, none⟩)
        (Except.ok ()) (fun _ => Except.ok ()) "up") = false
      ↔ ((⟨none, some ⟨some [], some ["warn"]⟩, none⟩ : ExecutionResult).error.isSome = true
          ∨ joinedStderr ⟨none, some ⟨some [], some ["warn"]⟩, none⟩ ≠ "") :=
  classification_amended (fun _ => Except.ok "c")
    (fun _ => Except.ok ⟨none, some ⟨some [], some ["warn"]⟩, none⟩)
    (Except.ok ()) (fun _ => Except.ok ()) "up" "c"
    ⟨none, some ⟨some [], some ["warn"]⟩, none⟩ rfl rfl rfl

/-- Counterexample for C2: when the artifact download throws (`EACCES` on
`plot.png`), the attempt is classified as failed even though the execution
result's error field is unset and the accumulated stderr is empty, so the
claimed equivalence fails in the only-if direction. -/
theorem classification_counterexample :
    attemptSucceeded (processRRequest (fun _ => Except.ok "c")
        (fun _ => Except.ok ⟨none, some ⟨some [], some []⟩, some ⟨some ["plot.png"]⟩⟩)
        (Except.ok ()) (fun _ => Except.error "EACCES") "up") = false ∧
    (⟨none, some ⟨some [], some []⟩, some ⟨some ["plot.png"]⟩⟩ : ExecutionResult).error.isSome = false ∧
    joinedStderr ⟨none, some ⟨some [], some []⟩, some ⟨some ["plot.png"]⟩⟩ = "" := by
  refine ⟨by decide, rfl, rfl⟩

/-- C10: `processRRequest` is total at its public interface: a throw in
generation, execution, or file download is converted into a returned value
with `success = false` and the thrown message recorded in `error`; when no
stage throws it returns the normal-path value.  (In the embedding, totality
itself is witnessed by `processRRequest` returning a plain `ProcessResult`
rather than an `Except`.) -/
theorem process_request_total (gen : String → Except String String)
    (exec : String → Except String ExecutionResult)
    (dlInit : Except String Unit) (dl : String → Except String Unit)
    (up m code : String) (er : ExecutionResult) :
    (gen up = Except.error m →
      processRRequest gen exec dlInit dl up = mkCatchResult up m ∧
      (processRRequest gen exec dlInit dl up).success = false ∧
      (processRRequest gen exec dlInit dl up).error = some m) ∧
    (gen up = Except.ok code → exec code = Except.error m →
      processRRequest gen exec dlInit dl up = mkCatchResult up m ∧
      (processRRequest gen exec dlInit dl up).success = false ∧
      (processRRequest gen exec dlInit dl up).error = some m) ∧
    (gen up = Except.ok code → exec code = Except.ok er →
      downloadPhase dlInit dl er = Except.error m →
      processRRequest gen exec dlInit dl up = mkCatchResult up m ∧
      (processRRequest gen exec dlInit dl up).success = false ∧
      (processRRequest gen exec dlInit dl up).error = some m) ∧
    (gen up = Except.ok code → exec code = Except.ok er →
      downloadPhase dlInit dl er = Except.ok () →
      processRRequest gen exec dlInit dl up = mkOkResult up code er) := by
  refine ⟨?_, ?_, ?_, ?_⟩
  · intro h1
    refine ⟨?_, ?_, ?_⟩ <;> simp [processRRequest, h1, mkCatchResult]
  · intro h1 h2
    refine ⟨?_, ?_, ?_⟩ <;> simp [processRRequest, h1, h2, mkCatchResult]
  · intro h1 h2 h3
    refine ⟨?_, ?_, ?_⟩ <;> simp [processRRequest, h1, h2, h3, mkCatchResult]
  · intro h1 h2 h3
    simp only [processRRequest, h1, h2, h3]

/-- Witness for C10: a generation throw with a missing-credentials message is
returned, not rethrown. -/
theorem process_request_total_witness :
    processRRequest (fun _ => Except.error "OpenAI API key is not configured. Set the OPENAI_API_KEY environment variable.")
        (fun _ => Except.ok ⟨none, none, none⟩) (Except.ok ()) (fun _ => Except.ok ()) "task"
      = mkCatchResult "task" "OpenAI API key is not configured. Set the OPENAI_API_KEY environment variable." ∧
    (processRRequest (fun _ => Except.error "OpenAI API key is not configured. Set the OPENAI_API_KEY environment variable.")
        (fun _ => Except.ok ⟨none, none, none⟩) (Except.ok ()) (fun _ => Except.ok ()) "task").success = false ∧
    (processRRequest (fun _ => Except.error "OpenAI API key is not configured. Set the OPENAI_API_KEY environment variable.")
        (fun _ => Except.ok ⟨none, none, none⟩) (Except.ok ()) (fun _ => Except.ok ()) "task").error
      = some "OpenAI API key is not configured. Set the OPENAI_API_KEY environment variable." :=
  (process_request_total (fun _ => Except.error "OpenAI API key is not configured. Set the OPENAI_API_KEY environment variable.")
    (fun _ => Except.ok ⟨none, none, none⟩) (Except.ok ()) (fun _ => Except.ok ()) "task"
    "OpenAI API key is not configured. Set the OPENAI_API_KEY environment variable."
    "c" ⟨none, none, none⟩).1 rfl

/-- C6 (amended): a failure inside the code generator itself (for example a
missing-credentials throw) does not propagate as a thrown terminal failure:
it is caught inside `processRRequest`, classified as a failed attempt,
consumes correction attempts like any other failure, and after exhaustion the
loop returns the last catch result, whose `error` field records the thrown
message. -/
theorem generator_failure_amended (gen : String → Except String String)
    (exec : String → Except String ExecutionResult)
    (dlInit : Except String Unit) (dl : String → Except String Unit)
    (up m : String) (maxAttempts : Nat) (h : 1 ≤ maxAttempts)
    (hgen : ∀ p, gen p = Except.error m) :
    ((runWithCorrection (fun _ p => processRRequest gen exec dlInit dl p) up maxAttempts).2).length
        = maxAttempts ∧
    ∃ p, (runWithCorrection (fun _ p => processRRequest gen exec dlInit dl p) up maxAttempts).1
        = some (mkCatchResult p m) := by
  have hfail : ∀ (a : Nat) (p : String),
      attemptSucceeded (processRRequest gen exec dlInit dl p) = false := by
    intro a p
    have hcatch : processRRequest gen exec dlInit dl p = mkCatchResult p m := by
      simp only [processRRequest, hgen p]
    rw [hcatch]
    rfl
  have hmain := go_all_fail (fun _ p => processRRequest gen exec dlInit dl p) up maxAttempts
    hfail (maxAttempts + 1) 1 "" none h (by omega)
  have hlen := hmain.1
  simp only [runWithCorrection]
  constructor
  · omega
  · obtain ⟨p, _, hres⟩ := hmain.2
    refine ⟨p, ?_⟩
    rw [hres]
    simp only [processRRequest, hgen p]

/-- Witness for C6 (amended): the missing-credentials generation throw under
`maxAttempts = 3`. -/
theorem generator_failure_amended_witness :
    ((runWithCorrection (fun _ p => processRRequest (fun _ => Except.error "nokey")
        (fun _ => Except.ok ⟨none, none, none⟩) (Except.ok ()) (fun _ => Except.ok ()) p)
        "task" 3).2).length = 3 ∧
    ∃ p, (runWithCorrection (fun _ p => processRRequest (fun _ => Except.error "nokey")
        (fun _ => Except.ok ⟨none, none, none⟩) (Except.ok ()) (fun _ => Except.ok ()) p)
        "task" 3).1 = some (mkCatchResult p "nokey") :=
  generator_failure_amended (fun _ => Except.error "nokey")
    (fun _ => Except.ok ⟨none, none, none⟩) (Except.ok ()) (fun _ => Except.ok ())
    "task" "nokey" 3 (by decide) (fun _ => rfl)

/-- Counterexample for C6: a missing-credentials generator failure consumes
all three correction attempts (three generation calls are made) and the loop
returns — rather than propagates — a result recording the message, so such a
failure does not bypass the correction attempts as claimed. -/
theorem generator_failure_counterexample :
    ((runWithCorrection (fun _ p => processRRequest
        (fun _ => Except.error "OpenAI API key is not configured. Set the OPENAI_API_KEY environment variable.")
        (fun _ => Except.ok ⟨none, none, none⟩) (Except.ok ()) (fun _ => Except.ok ()) p)
        "task" 3).2).length = 3 ∧
    ((runWithCorrection (fun _ p => processRRequest
        (fun _ => Except.error "OpenAI API key is not configured. Set the OPENAI_API_KEY environment variable.")
        (fun _ => Except.ok ⟨none, none, none⟩) (Except.ok ()) (fun _ => Except.ok ()) p)
        "task" 3).1).map (fun r => (r.success, r.error))
      = some (false, some "OpenAI API key is not configured. Set the OPENAI_API_KEY environment variable.") := by
  refine ⟨by decide, by decide⟩

/-- Witness for C4: all three attempts fail. -/
theorem exhaustion_returns_last_witness :
    ((runWithCorrection (fun _ p => mkCatchResult p "boom") "task" 3).2).length = 3 ∧
    ∃ p, (3, p) ∈ (runWithCorrection (fun _ p => mkCatchResult p "boom") "task" 3).2 ∧
      (runWithCorrection (fun _ p => mkCatchResult p "boom") "task" 3).1
        = some ((fun (_ : Nat) (p : String) => mkCatchResult p "boom") 3 p) :=
  exhaustion_returns_last _ "task" 3 (by decide) (fun _ _ => rfl)

theorem downloadFilesGo_eq (fetch : String → Except String Unit) (dir : String) :
    ∀ files acc, downloadFilesGo fetch dir files acc
      = acc ++ (files.filter (fun p => exceptOk (fetch p))).map
          (fun p => pathJoin dir (basename p)) := by
  intro files
  induction files with
  | nil => intro acc; simp [downloadFilesGo]
  | cons p rest ih =>
    intro acc
    cases hf : fetch p with
    | ok u => simp [downloadFilesGo, hf, ih, exceptOk]
    | error e => simp [downloadFilesGo, hf, ih, exceptOk]

/-- C7 (amended): the two artifact-collection code paths behave differently,
and neither matches the claim in full.  `downloadFilesFromSandbox` applies no
extension filter at all: it returns exactly the local paths (base name under
`localDir`) of the files whose read succeeded, skipping — without aborting —
every file whose read throws.  `processRRequest`'s inline download pass
consults the read oracle only for files passing the case-sensitive
`.png`/`.jpg`/`.pdf` suffix test, and a single thrown read aborts the
remaining downloads, propagating the error. -/
theorem artifact_collection_amended (fetch dl dl' : String → Except String Unit)
    (files fs : List String) (dir f e : String)
    (hagree : ∀ g, allowJs g = true → dl g = dl' g)
    (hf : allowJs f = true) (hdl : dl f = Except.error e) :
    downloadFilesFromSandbox fetch files dir
        = (files.filter (fun p => exceptOk (fetch p))).map
            (fun p => pathJoin dir (basename p)) ∧
    downloadLoop dl files = downloadLoop dl' files ∧
    downloadLoop dl (f :: fs) = Except.error e := by
  refine ⟨?_, ?_, ?_⟩
  · simpa [downloadFilesFromSandbox] using downloadFilesGo_eq fetch dir files []
  · induction files with
    | nil => rfl
    | cons g rest ih =>
      by_cases hg : allowJs g = true
      · simp only [downloadLoop]
        rw [if_pos hg, if_pos hg, hagree g hg]
        cases dl' g with
        | error e2 => rfl
        | ok u => exact ih
      · simp only [downloadLoop]
        rw [if_neg hg, if_neg hg]
        exact ih
  · simp only [downloadLoop]
    rw [if_pos hf, hdl]

/-- Witness for C7 (amended): a `.txt` file collected by
`downloadFilesFromSandbox`, and an aborting read on an allowlisted file in the
inline loop. -/
theorem artifact_collection_amended_witness :
    downloadFilesFromSandbox (fun _ => Except.ok ()) ["output/data.txt"] "plots"
        = (["output/data.txt"].filter
            (fun p => exceptOk ((fun _ : String => (Except.ok () : Except String Unit)) p))).map
            (fun p => pathJoin "plots" (basename p)) ∧
    downloadLoop (fun _ => Except.error "EACCES") ["output/data.txt"]
        = downloadLoop (fun _ => Except.error "EACCES") ["output/data.txt"] ∧
    downloadLoop (fun _ => Except.error "EACCES") ("a.png" :: [])
        = Except.error "EACCES" :=
  artifact_collection_amended (fun _ => Except.ok ()) (fun _ => Except.error "EACCES")
    (fun _ => Except.error "EACCES") ["output/data.txt"] [] "plots" "a.png" "EACCES"
    (fun _ _ => rfl) (by decide) rfl

/-- Counterexample for C7: the collection helper returns `plots/data.txt`,
whose extension is outside the allowlist; the inline pass never reads a file
named `plot.PNG` (a download oracle that throws on every path leaves the
request successful, so the match is case-sensitive, not case-insensitive);
and a single thrown read on `plot.png` aborts the whole request instead of
skipping that file. -/
theorem artifact_allowlist_counterexample :
    downloadFilesFromSandbox (fun _ => Except.ok ()) ["output/data.txt"] "plots"
        = ["plots/data.txt"] ∧
    jsEndsWith "plots/data.txt" ".png" = false ∧
    jsEndsWith "plots/data.txt" ".jpg" = false ∧
    jsEndsWith "plots/data.txt" ".pdf" = false ∧
    (processRRequest (fun _ => Except.ok "c")
        (fun _ => Except.ok ⟨none, none, some ⟨some ["plot.PNG"]⟩⟩)
        (Except.ok ()) (fun _ => Except.error "EACCES") "up").success = true ∧
    (processRRequest (fun _ => Except.ok "c")
        (fun _ => Except.ok ⟨none, none, some ⟨some ["plot.png"]⟩⟩)
        (Except.ok ()) (fun _ => Except.error "EACCES") "up").success = false := by
  exact ⟨by decide, by decide, by decide, by decide, by decide, by decide⟩

theorem hasTripleBt_cons (c : Char) (l : List Char) :
    hasTripleBt (c :: l)
      = (((startsWithSeq [btChar, btChar] l) && (c = btChar)) || hasTripleBt l) := by
  match l with
  | [] => simp [hasTripleBt, startsWithSeq]
  | [x] => simp [hasTripleBt, startsWithSeq]
  | x :: y :: m =>
    simp only [hasTripleBt, startsWithSeq]
    by_cases hc : c = btChar <;> by_cases hx : x = btChar <;> by_cases hy : y = btChar <;>
      simp [hc, hx, hy]

theorem startsWithSeq_two (l : List Char) :
    startsWithSeq [btChar, btChar] l = true ↔ ∃ m, l = btChar :: btChar :: m := by
  match l with
  | [] => simp [startsWithSeq]
  | [x] => simp [startsWithSeq]
  | x :: y :: m =>
    by_cases hx : x = btChar <;> by_cases hy : y = btChar <;>
      simp [startsWithSeq, hx, hy]

theorem hasTripleBt_iff (l : List Char) :
    hasTripleBt l = true ↔ [btChar, btChar, btChar] <:+: l := by
  induction l with
  | nil =>
    simp only [hasTripleBt, Bool.false_eq_true, false_iff]
    intro h
    have := h.sublist.length_le
    simp at this
  | cons a m ih =>
    rw [hasTripleBt_cons]
    constructor
    · intro h
      simp only [Bool.or_eq_true] at h
      rcases h with h1 | h1
      · simp only [Bool.and_eq_true] at h1
        obtain ⟨m', rfl⟩ := (startsWithSeq_two m).mp h1.1
        have ha : a = btChar := by simpa using h1.2
        subst ha
        exact ⟨[], m', rfl⟩
      · exact List.infix_cons (ih.mp h1)
    · rintro ⟨s, t, hst⟩
      cases s with
      | nil =>
        simp only [List.nil_append, List.cons_append] at hst
        injection hst with h1 h2
        subst h1
        subst h2
        simp only [Bool.or_eq_true]
        left
        simp [startsWithSeq]
      | cons b s' =>
        simp only [List.cons_append] at hst
        injection hst with h1 h2
        have hm : [btChar, btChar, btChar] <:+: m := ⟨s', t, h2⟩
        simp only [Bool.or_eq_true]
        exact Or.inr (ih.mpr hm)

theorem hasTriple_false_of_part {l₁ l₂ : List Char} (h : l₁ <:+: l₂)
    (h2 : hasTripleBt l₂ = false) : hasTripleBt l₁ = false := by
  by_contra hc
  have h1 : hasTripleBt l₁ = true := by
    cases hb : hasTripleBt l₁ with
    | false => exact absurd hb hc
    | true => rfl
  have := (hasTripleBt_iff l₂).mpr (((hasTripleBt_iff l₁).mp h1).trans h)
  rw [h2] at this
  cases this

theorem jsTrim_isPart (l : List Char) : jsTrim l <:+: l := by
  have h1 : (l.dropWhile jsWhite) <:+ l := List.dropWhile_suffix jsWhite
  have h2 : ((l.dropWhile jsWhite).reverse.dropWhile jsWhite)
      <:+ (l.dropWhile jsWhite).reverse := List.dropWhile_suffix jsWhite
  have h3 : ((l.dropWhile jsWhite).reverse.dropWhile jsWhite).reverse
      <+: (l.dropWhile jsWhite) := by
    apply List.reverse_suffix.mp
    simpa using h2
  exact (List.IsPrefix.isInfix h3).trans (List.IsSuffix.isInfix h1)

theorem stripFences_cons_ne (c : Char) (m : List Char) (h : ¬c = btChar) :
    stripFences (c :: m) = c :: stripFences m := by
  match m with
  | [] => rfl
  | [x] => rfl
  | [x, y] =>
    have hcond : (decide (c = btChar) && decide (x = btChar) && decide (y = btChar))
        = false := by simp [h]
    simp [stripFences, hcond]
  | x :: y :: z :: m' =>
    have hcond : (decide (c = btChar) && decide (x = btChar) && decide (y = btChar))
        = false := by simp [h]
    simp [stripFences, hcond]

theorem stripFences_no_double_start (l : List Char)
    (h : startsWithSeq [btChar, btChar] l = false) :
    startsWithSeq [btChar, btChar] (stripFences l) = false := by
  match l with
  | [] => simp [stripFences, startsWithSeq]
  | c :: m =>
    by_cases hc : c = btChar
    · subst hc
      cases m with
      | nil => simp [startsWithSeq, show stripFences [btChar] = [btChar] from rfl]
      | cons x m2 =>
        have hx : ¬x = btChar := by
          intro hxx
          subst hxx
          simp [startsWithSeq] at h
        cases m2 with
        | nil =>
          rw [show stripFences [btChar, x] = btChar :: stripFences [x] from rfl]
          rw [stripFences_cons_ne x [] hx]
          simp [startsWithSeq, hx]
        | cons y m3 =>
          cases m3 with
          | nil =>
            rw [show stripFences [btChar, x, y] = btChar :: stripFences [x, y] from by
              rw [stripFences, if_neg]
              simp [hx]]
            rw [stripFences_cons_ne x [y] hx]
            simp [startsWithSeq, hx]
          | cons z m4 =>
            rw [show stripFences (btChar :: x :: y :: z :: m4)
                = btChar :: stripFences (x :: y :: z :: m4) from by
              rw [stripFences, if_neg]
              simp [hx]]
            rw [stripFences_cons_ne x (y :: z :: m4) hx]
            simp [startsWithSeq, hx]
    · rw [stripFences_cons_ne c m hc]
      simp [startsWithSeq, hc]

theorem stripFences_no_triple (l : List Char) : hasTripleBt (stripFences l) = false := by
  induction l using stripFences.induct with
  | case1 c1 c2 c3 c4 rest hcond hc4 ih =>
    rw [show stripFences (c1 :: c2 :: c3 :: c4 :: rest) = stripFences rest from by
      simp [stripFences, hcond, hc4]]
    exact ih
  | case2 c1 c2 c3 c4 rest hcond hc4 ih =>
    rw [show stripFences (c1 :: c2 :: c3 :: c4 :: rest) = stripFences (c4 :: rest) from by
      simp [stripFences, hcond, hc4]]
    exact ih
  | case3 c1 c2 c3 c4 rest hcond ih =>
    have hcondf : (decide (c1 = btChar) && decide (c2 = btChar) && decide (c3 = btChar))
        = false := Bool.eq_false_iff.2 hcond
    rw [show stripFences (c1 :: c2 :: c3 :: c4 :: rest)
        = c1 :: stripFences (c2 :: c3 :: c4 :: rest) from by
      simp [stripFences, hcondf]]
    rw [hasTripleBt_cons]
    by_cases hc1 : c1 = btChar
    · have hsw : startsWithSeq [btChar, btChar] (c2 :: c3 :: c4 :: rest) = false := by
        simp only [startsWithSeq]
        subst hc1
        cases hb2 : decide (c2 = btChar) with
        | false => simp
        | true =>
          cases hb3 : decide (c3 = btChar) with
          | false => simp [hb3]
          | true =>
            exfalso
            rw [hb2, hb3] at hcondf
            simp at hcondf
      rw [stripFences_no_double_start _ hsw, ih]
      rfl
    · simp [hc1, ih]
  | case4 c1 c2 c3 hcond =>
    rw [show stripFences [c1, c2, c3] = [] from by simp [stripFences, hcond]]
    rfl
  | case5 c1 c2 c3 hcond ih =>
    have hcondf : (decide (c1 = btChar) && decide (c2 = btChar) && decide (c3 = btChar))
        = false := Bool.eq_false_iff.2 hcond
    rw [show stripFences [c1, c2, c3] = c1 :: stripFences [c2, c3] from by
      simp [stripFences, hcondf]]
    rw [hasTripleBt_cons]
    by_cases hc1 : c1 = btChar
    · have hsw : startsWithSeq [btChar, btChar] [c2, c3] = false := by
        simp only [startsWithSeq]
        subst hc1
        cases hb2 : decide (c2 = btChar) with
        | false => simp
        | true =>
          cases hb3 : decide (c3 = btChar) with
          | false => simp [hb3]
          | true =>
            exfalso
            rw [hb2, hb3] at hcondf
            simp at hcondf
      rw [stripFences_no_double_start _ hsw, ih]
      rfl
    · simp [hc1, ih]
  | case6 c1 rest hlong hthree ih =>
    match rest, hlong, hthree with
    | [], _, _ =>
      rw [show stripFences [c1] = [c1] from rfl]
      rfl
    | [x], _, _ =>
      rw [show stripFences [c1, x] = c1 :: stripFences [x] from rfl]
      rw [hasTripleBt_cons]
      have hsw : startsWithSeq [btChar, btChar] (stripFences [x]) = false := by
        rw [show stripFences [x] = [x] from rfl]
        simp [startsWithSeq]
      rw [hsw, ih]
      rfl
    | [x, y], _, hthree2 => exact absurd rfl (hthree2 x y)
    | x :: y :: z :: m', hlong2, _ => exact absurd rfl (hlong2 x y z m')
  | case7 => rfl

theorem removeAllBt_no_triple (l : List Char) : hasTripleBt (removeAllBt l) = false := by
  by_contra hc
  have h1 : hasTripleBt (removeAllBt l) = true := by
    cases hb : hasTripleBt (removeAllBt l) with
    | false => exact absurd hb hc
    | true => rfl
  have hinf := (hasTripleBt_iff _).mp h1
  have hmem : btChar ∈ removeAllBt l :=
    hinf.sublist.mem (by simp)
  have := List.of_mem_filter hmem
  simp at this

/-- C8 (amended): for every text, the code returned by `cleanRCode` contains
no triple-backtick fence, and is either the whitespace-trimmed fence-stripped
text or that text with every backtick removed — the trim happens before the
stray-backtick check, so removing enclosing backticks can re-expose interior
leading/trailing whitespace. -/
theorem clean_code_amended (code : List Char) :
    hasTripleBt (cleanRCode code) = false ∧
    (cleanRCode code = jsTrim (stripFences code) ∨
     cleanRCode code = removeAllBt (jsTrim (stripFences code))) := by
  constructor
  · simp only [cleanRCode]
    split
    · exact removeAllBt_no_triple _
    · exact hasTriple_false_of_part (jsTrim_isPart _) (stripFences_no_triple code)
  · simp only [cleanRCode]
    split
    · right
      rfl
    · left
      rfl

/-- Counterexample for C8: on the model response made of a backtick, a
space-padded body and a closing backtick, `cleanRCode` returns text with a
leading and a trailing space, because trimming precedes stray-backtick
removal. -/
theorem clean_code_whitespace_counterexample :
    cleanRCode ("` x `".toList) = [' ', 'x', ' '] := by decide

theorem processRRequestS_ctr_le (gen : String → Except String String)
    (runOutcome : Nat → String → Except String ExecutionResult)
    (readOutcome : Nat → String → Except String Unit) (p : String) (ctr : Nat) :
    ctr ≤ (processRRequestS gen runOutcome readOutcome p ctr).2.1 := by
  simp only [processRRequestS, executeRCodeS]
  cases hg : gen p with
  | error m => simp
  | ok code =>
    simp only []
    cases hr : runOutcome ctr code with
    | error m => simp [hr]
    | ok er =>
      simp only [hr]
      cases hf : er.filesystem with
      | none => simp [hf]
      | some fsys =>
        simp only [hf]
        cases hcf : fsys.createdFiles with
        | none => simp [hcf]
        | some files =>
          simp only [hcf]
          cases hdl : downloadLoop (readOutcome (ctr + 1)) files with
          | error m => simp [hdl]; omega
          | ok u => simp [hdl]; omega

theorem processRRequestS_sid_bound (gen : String → Except String String)
    (runOutcome : Nat → String → Except String ExecutionResult)
    (readOutcome : Nat → String → Except String Unit) (p : String) (ctr : Nat) :
    ∀ s ∈ opsSids (processRRequestS gen runOutcome readOutcome p ctr).2.2,
      ctr ≤ s ∧ s < (processRRequestS gen runOutcome readOutcome p ctr).2.1 := by
  simp only [processRRequestS, executeRCodeS]
  cases hg : gen p with
  | error m => simp [opsSids]
  | ok code =>
    simp only []
    cases hr : runOutcome ctr code with
    | error m => simp [hr, opsSids]
    | ok er =>
      simp only [hr]
      cases hf : er.filesystem with
      | none => simp [hf, opsSids]
      | some fsys =>
        simp only [hf]
        cases hcf : fsys.createdFiles with
        | none => simp [hcf, opsSids]
        | some files =>
          simp only [hcf]
          cases hdl : downloadLoop (readOutcome (ctr + 1)) files with
          | error m => simp [hdl, opsSids]; omega
          | ok u => simp [hdl, opsSids]; omega

theorem processRRequestS_no_close (gen : String → Except String String)
    (runOutcome : Nat → String → Except String ExecutionResult)
    (readOutcome : Nat → String → Except String Unit) (p : String) (ctr : Nat) :
    ∀ sid, SboxOp.close sid ∉ (processRRequestS gen runOutcome readOutcome p ctr).2.2 := by
  simp only [processRRequestS, executeRCodeS]
  cases hg : gen p with
  | error m => simp
  | ok code =>
    simp only []
    cases hr : runOutcome ctr code with
    | error m => simp [hr]
    | ok er =>
      simp only [hr]
      cases hf : er.filesystem with
      | none => simp [hf]
      | some fsys =>
        simp only [hf]
        cases hcf : fsys.createdFiles with
        | none => simp [hcf]
        | some files =>
          simp only [hcf]
          cases hdl : downloadLoop (readOutcome (ctr + 1)) files with
          | error m => simp [hdl]
          | ok u => simp [hdl]

theorem goS_of_gt (gen : String → Except String String)
    (runOutcome : Nat → String → Except String ExecutionResult)
    (readOutcome : Nat → String → Except String Unit) (up : String) (maxA : Nat)
    (fuel attempt : Nat) (ec : String) (last : Option ProcessResult) (ctr : Nat)
    (h : maxA < attempt) :
    runWithCorrectionGoS gen runOutcome readOutcome up maxA fuel attempt ec last ctr
      = (last, []) := by
  cases fuel with
  | zero => rfl
  | succ n =>
    simp only [runWithCorrectionGoS]
    rw [if_neg (Nat.not_le.2 h)]

theorem goS_of_le_succ (gen : String → Except String String)
    (runOutcome : Nat → String → Except String ExecutionResult)
    (readOutcome : Nat → String → Except String Unit) (up : String) (maxA : Nat)
    (fuel attempt : Nat) (ec : String) (last : Option ProcessResult) (ctr : Nat)
    (h : attempt ≤ maxA)
    (hs : attemptSucceeded (processRRequestS gen runOutcome readOutcome
      (promptWithContext up ec attempt) ctr).1 = true) :
    runWithCorrectionGoS gen runOutcome readOutcome up maxA (fuel + 1) attempt ec last ctr
      = (some (processRRequestS gen runOutcome readOutcome
          (promptWithContext up ec attempt) ctr).1,
         [(attempt, (processRRequestS gen runOutcome readOutcome
          (promptWithContext up ec attempt) ctr).2.2)]) := by
  simp only [runWithCorrectionGoS]
  rw [if_pos h]
  simp only [hs, if_pos]

theorem goS_of_le_fail (gen : String → Except String String)
    (runOutcome : Nat → String → Except String ExecutionResult)
    (readOutcome : Nat → String → Except String Unit) (up : String) (maxA : Nat)
    (fuel attempt : Nat) (ec : String) (last : Option ProcessResult) (ctr : Nat)
    (h : attempt ≤ maxA)
    (hs : attemptSucceeded (processRRequestS gen runOutcome readOutcome
      (promptWithContext up ec attempt) ctr).1 = false) :
    runWithCorrectionGoS gen runOutcome readOutcome up maxA (fuel + 1) attempt ec last ctr
      = ((runWithCorrectionGoS gen runOutcome readOutcome up maxA fuel (attempt + 1)
            (nextErrorContext (processRRequestS gen runOutcome readOutcome
              (promptWithContext up ec attempt) ctr).1)
            (some (processRRequestS gen runOutcome readOutcome
              (promptWithContext up ec attempt) ctr).1)
            (processRRequestS gen runOutcome readOutcome
              (promptWithContext up ec attempt) ctr).2.1).1,
         (attempt, (processRRequestS gen runOutcome readOutcome
            (promptWithContext up ec attempt) ctr).2.2) ::
          (runWithCorrectionGoS gen runOutcome readOutcome up maxA fuel (attempt + 1)
            (nextErrorContext (processRRequestS gen runOutcome readOutcome
              (promptWithContext up ec attempt) ctr).1)
            (some (processRRequestS gen runOutcome readOutcome
              (promptWithContext up ec attempt) ctr).1)
            (processRRequestS gen runOutcome readOutcome
              (promptWithContext up ec attempt) ctr).2.1).2) := by
  simp only [runWithCorrectionGoS]
  rw [if_pos h]
  simp only [hs, Bool.false_eq_true, if_false]

theorem goS_attempt_lb (gen : String → Except String String)
    (runOutcome : Nat → String → Except String ExecutionResult)
    (readOutcome : Nat → String → Except String Unit) (up : String) (maxA : Nat) :
    ∀ fuel attempt ec last ctr,
      ∀ e ∈ (runWithCorrectionGoS gen runOutcome readOutcome up maxA
        fuel attempt ec last ctr).2, attempt ≤ e.1 := by
  intro fuel
  induction fuel with
  | zero => intro attempt ec last ctr e he; cases he
  | succ n ih =>
    intro attempt ec last ctr e he
    by_cases hle : attempt ≤ maxA
    · by_cases hs : attemptSucceeded (processRRequestS gen runOutcome readOutcome
          (promptWithContext up ec attempt) ctr).1 = true
      · rw [goS_of_le_succ gen runOutcome readOutcome up maxA n attempt ec last ctr hle hs]
          at he
        simp at he
        simp [he]
      · rw [goS_of_le_fail gen runOutcome readOutcome up maxA n attempt ec last ctr hle
          (Bool.eq_false_iff.2 hs)] at he
        rcases List.mem_cons.mp he with h1 | h1
        · subst h1; exact Nat.le_refl _
        · have := ih (attempt + 1) _ _ _ e h1
          omega
    · rw [goS_of_gt gen runOutcome readOutcome up maxA (n + 1) attempt ec last ctr
        (Nat.lt_of_not_le hle)] at he
      cases he

theorem goS_sid_lb (gen : String → Except String String)
    (runOutcome : Nat → String → Except String ExecutionResult)
    (readOutcome : Nat → String → Except String Unit) (up : String) (maxA : Nat) :
    ∀ fuel attempt ec last ctr,
      ∀ e ∈ (runWithCorrectionGoS gen runOutcome readOutcome up maxA
        fuel attempt ec last ctr).2, ∀ s ∈ opsSids e.2, ctr ≤ s := by
  intro fuel
  induction fuel with
  | zero => intro attempt ec last ctr e he; cases he
  | succ n ih =>
    intro attempt ec last ctr e he s hs
    by_cases hle : attempt ≤ maxA
    · by_cases hsucc : attemptSucceeded (processRRequestS gen runOutcome readOutcome
          (promptWithContext up ec attempt) ctr).1 = true
      · rw [goS_of_le_succ gen runOutcome readOutcome up maxA n attempt ec last ctr hle hsucc]
          at he
        simp at he
        subst he
        exact (processRRequestS_sid_bound gen runOutcome readOutcome
          (promptWithContext up ec attempt) ctr s hs).1
      · rw [goS_of_le_fail gen runOutcome readOutcome up maxA n attempt ec last ctr hle
          (Bool.eq_false_iff.2 hsucc)] at he
        rcases List.mem_cons.mp he with h1 | h1
        · subst h1
          exact (processRRequestS_sid_bound gen runOutcome readOutcome
            (promptWithContext up ec attempt) ctr s hs).1
        · have hstep := processRRequestS_ctr_le gen runOutcome readOutcome
            (promptWithContext up ec attempt) ctr
          have := ih (attempt + 1) _ _ _ e h1 s hs
          omega
    · rw [goS_of_gt gen runOutcome readOutcome up maxA (n + 1) attempt ec last ctr
        (Nat.lt_of_not_le hle)] at he
      cases he

theorem goS_no_close (gen : String → Except String String)
    (runOutcome : Nat → String → Except String ExecutionResult)
    (readOutcome : Nat → String → Except String Unit) (up : String) (maxA : Nat) :
    ∀ fuel attempt ec last ctr,
      ∀ e ∈ (runWithCorrectionGoS gen runOutcome readOutcome up maxA
        fuel attempt ec last ctr).2, ∀ sid, SboxOp.close sid ∉ e.2 := by
  intro fuel
  induction fuel with
  | zero => intro attempt ec last ctr e he; cases he
  | succ n ih =>
    intro attempt ec last ctr e he sid
    by_cases hle : attempt ≤ maxA
    · by_cases hsucc : attemptSucceeded (processRRequestS gen runOutcome readOutcome
          (promptWithContext up ec attempt) ctr).1 = true
      · rw [goS_of_le_succ gen runOutcome readOutcome up maxA n attempt ec last ctr hle hsucc]
          at he
        simp at he
        subst he
        exact processRRequestS_no_close gen runOutcome readOutcome
          (promptWithContext up ec attempt) ctr sid
      · rw [goS_of_le_fail gen runOutcome readOutcome up maxA n attempt ec last ctr hle
          (Bool.eq_false_iff.2 hsucc)] at he
        rcases List.mem_cons.mp he with h1 | h1
        · subst h1
          exact processRRequestS_no_close gen runOutcome readOutcome
            (promptWithContext up ec attempt) ctr sid
        · exact ih (attempt + 1) _ _ _ e h1 sid
    · rw [goS_of_gt gen runOutcome readOutcome up maxA (n + 1) attempt ec last ctr
        (Nat.lt_of_not_le hle)] at he
      cases he

theorem goS_sid_fresh (gen : String → Except String String)
    (runOutcome : Nat → String → Except String ExecutionResult)
    (readOutcome : Nat → String → Except String Unit) (up : String) (maxA : Nat) :
    ∀ fuel attempt ec last ctr,
      ∀ e ∈ (runWithCorrectionGoS gen runOutcome readOutcome up maxA
          fuel attempt ec last ctr).2,
        ∀ e' ∈ (runWithCorrectionGoS gen runOutcome readOutcome up maxA
          fuel attempt ec last ctr).2,
          e.1 < e'.1 → ∀ s ∈ opsSids e.2, ∀ t ∈ opsSids e'.2, s < t := by
  intro fuel
  induction fuel with
  | zero => intro attempt ec last ctr e he; cases he
  | succ n ih =>
    intro attempt ec last ctr e he e' he' hlt s hsmem t htmem
    by_cases hle : attempt ≤ maxA
    · by_cases hsucc : attemptSucceeded (processRRequestS gen runOutcome readOutcome
          (promptWithContext up ec attempt) ctr).1 = true
      · rw [goS_of_le_succ gen runOutcome readOutcome up maxA n attempt ec last ctr hle hsucc]
          at he he'
        simp at he he'
        subst he
        subst he'
        simp at hlt
      · rw [goS_of_le_fail gen runOutcome readOutcome up maxA n attempt ec last ctr hle
          (Bool.eq_false_iff.2 hsucc)] at he he'
        rcases List.mem_cons.mp he with h1 | h1 <;> rcases List.mem_cons.mp he' with h2 | h2
        · subst h1
          subst h2
          simp at hlt
        · subst h1
          have hsb := (processRRequestS_sid_bound gen runOutcome readOutcome
            (promptWithContext up ec attempt) ctr s hsmem).2
          have htb := goS_sid_lb gen runOutcome readOutcome up maxA n (attempt + 1) _ _ _
            e' h2 t htmem
          omega
        · subst h2
          have := goS_attempt_lb gen runOutcome readOutcome up maxA n (attempt + 1) _ _ _
            e h1
          simp at hlt
          omega
        · exact ih (attempt + 1) _ _ _ e h1 e' h2 hlt s hsmem t htmem
    · rw [goS_of_gt gen runOutcome readOutcome up maxA (n + 1) attempt ec last ctr
        (Nat.lt_of_not_le hle)] at he
      cases he

/-- C9 (amended): an attempt whose remote execution throws (for example a
timeout) is classified as failed; no session handle is ever closed by the
code (there is no close/kill call in the source); and every later attempt
uses only freshly created sessions — all session identifiers of a later
attempt are strictly greater than those of any earlier attempt, so a
timed-out handle is never reused. -/
theorem session_lifecycle_amended (gen : String → Except String String)
    (runOutcome : Nat → String → Except String ExecutionResult)
    (readOutcome : Nat → String → Except String Unit) (up : String)
    (maxAttempts ctr0 : Nat) (p code : String) (ctr : Nat) (m : String)
    (hgen : gen p = Except.ok code) (hrun : runOutcome ctr code = Except.error m) :
    attemptSucceeded ((processRRequestS gen runOutcome readOutcome p ctr).1) = false ∧
    (∀ e ∈ (runWithCorrectionS gen runOutcome readOutcome up maxAttempts ctr0).2,
      ∀ sid, SboxOp.close sid ∉ e.2) ∧
    (∀ e ∈ (runWithCorrectionS gen runOutcome readOutcome up maxAttempts ctr0).2,
      ∀ e' ∈ (runWithCorrectionS gen runOutcome readOutcome up maxAttempts ctr0).2,
        e.1 < e'.1 → ∀ s ∈ opsSids e.2, ∀ t ∈ opsSids e'.2, s < t) := by
  refine ⟨?_, ?_, ?_⟩
  · simp only [processRRequestS, executeRCodeS, hgen, hrun]
    rfl
  · exact goS_no_close gen runOutcome readOutcome up maxAttempts (maxAttempts + 1) 1 "" none ctr0
  · exact goS_sid_fresh gen runOutcome readOutcome up maxAttempts (maxAttempts + 1) 1 "" none ctr0

/-- Witness for C9 (amended): every run times out; two attempts are made on
sessions 0 and 1, neither ever closed. -/
theorem session_lifecycle_amended_witness :
    attemptSucceeded ((processRRequestS (fun _ => Except.ok "c")
        (fun _ _ => Except.error "Execution timed out") (fun _ _ => Except.ok ())
        "task" 0).1) = false ∧
    (∀ e ∈ (runWithCorrectionS (fun _ => Except.ok "c")
        (fun _ _ => Except.error "Execution timed out") (fun _ _ => Except.ok ())
        "task" 2 0).2, ∀ sid, SboxOp.close sid ∉ e.2) ∧
    (∀ e ∈ (runWithCorrectionS (fun _ => Except.ok "c")
        (fun _ _ => Except.error "Execution timed out") (fun _ _ => Except.ok ())
        "task" 2 0).2,
      ∀ e' ∈ (runWithCorrectionS (fun _ => Except.ok "c")
        (fun _ _ => Except.error "Execution timed out") (fun _ _ => Except.ok ())
        "task" 2 0).2,
        e.1 < e'.1 → ∀ s ∈ opsSids e.2, ∀ t ∈ opsSids e'.2, s < t) :=
  session_lifecycle_amended (fun _ => Except.ok "c")
    (fun _ _ => Except.error "Execution timed out") (fun _ _ => Except.ok ())
    "task" 2 0 "task" "c" 0 "Execution timed out" rfl rfl

/-- Counterexample for C9: with every execution timing out and
`maxAttempts = 2`, the complete sandbox-operation trace is
`create 0, runCode 0` for attempt 1 and `create 1, runCode 1` for attempt 2:
no close of the timed-out session 0 ever occurs (in particular not before
attempt 2 begins), contradicting the claim that the handle is closed before
the next attempt. -/
theorem session_close_counterexample :
    (runWithCorrectionS (fun _ => Except.ok "c")
        (fun _ _ => Except.error "Execution timed out") (fun _ _ => Except.ok ())
        "task" 2 0).2
      = [(1, [SboxOp.create 0, SboxOp.runCode 0]),
         (2, [SboxOp.create 1, SboxOp.runCode 1])] ∧
    SboxOp.close 0 ∉ ([SboxOp.create 0, SboxOp.runCode 0]
        ++ [SboxOp.create 1, SboxOp.runCode 1]) ∧
    SboxOp.create 1 ∈ ([SboxOp.create 0, SboxOp.runCode 0]
        ++ [SboxOp.create 1, SboxOp.runCode 1]) := by
  refine ⟨by decide, by decide, by decide⟩

end LlmR
